import Mathlib

/-!
Verification of the bluffy chunk-processing and similarity pipeline.

This file gives a shallow embedding, in Lean 4, of the pure cores of the
program under study:

* the all-pairs similarity engine (`CosineSimilarity`, `EuclideanDistance`,
  `CalculateAllSimilarities` from the `similarity` package),
* the store-level similarity pass of the GUI application
  (`CalculateSimilarities` and its internal `cosineSimilarity`),
* the summary-cleaning transform (`cleanSummaryResponse` plus the 10-word
  truncation performed by `GetSummary` in `pkg/embedding/ollama.go`),
* the paragraph chunkers (`ChunkTextByParagraphs` of the `textproc` package,
  in both its line-scanner and text-splitter variants),
* the transactional batch insert (`BatchInsertSimilarities` in
  `pkg/database/sqlite.go`), and
* the concurrent batch operations (`GetEmbeddingsConcurrent`,
  `GetSummariesConcurrent` in `pkg/embedding/ollama.go`).

Modelling conventions:

* Go `float64` is modelled by `ℚ`.  Every numeric claim proved here is about
  control flow and exact identities (zero tests, `1 - s`, record counts) that
  hold verbatim under IEEE-754 arithmetic as well; no claim depends on
  rounding.  `math.Sqrt` (and the Newton-method `sqrt` of the GUI store) is
  not exactly representable over `ℚ`, so the square-root routine is passed as
  an explicit parameter `sqrtF : ℚ → ℚ`; where a claim needs a fact about it
  (only `sqrtF 0 = 0`, true of IEEE `math.Sqrt`) that fact is a hypothesis.
* Go `int` is modelled by `Int`; list indices are `Nat`.
* Fallible Go functions returning `(T, error)` are modelled as
  `Except String T`; functions returning `(T, error)` where both matter are
  modelled as explicit pairs.
* External collaborators (the Ollama HTTP service, the langchaingo text
  splitter, the SQLite driver) are modelled at their interface boundary as
  function parameters or explicit state, as the specification directs.
-/

namespace Bluffy

/-- Go struct `database.TextChunk` (pkg/database/models.go): one contiguous
unit of source text with its embedding and summary.  Field names follow the
source; the Go zero value is `{0, "", 0, nil, ""}`. -/
structure TextChunk where
  id : Int
  text : String
  chunkIndex : Int
  embedding : List ℚ
  summary : String
deriving Repr, DecidableEq

/-- Go zero value of `TextChunk`, as produced by
`make([]database.TextChunk, n)`. -/
instance : Inhabited TextChunk := ⟨⟨0, "", 0, [], ""⟩⟩

/-- Go struct `database.ChunkSimilarity`: a pairwise measurement between two
persisted chunks.  The `id` field is assigned by the store; code that builds
records in memory leaves it at the zero value. -/
structure ChunkSimilarity where
  id : Int
  chunkID1 : Int
  chunkID2 : Int
  distance : ℚ
  similarity : ℚ
deriving Repr, DecidableEq

instance : Inhabited ChunkSimilarity := ⟨⟨0, 0, 0, 0, 0⟩⟩

/-! ## Vector math of the similarity engine (src/unnamed/part_008)

The Go loop

    for i := 0; i < len(a); i++ {
        dotProduct += a[i] * b[i]
        normA += a[i] * a[i]
        normB += b[i] * b[i]
    }

accumulates three running sums over positions `0..len-1`; it is embedded as
three left folds (`dotProduct` over the zip, `sumSquares` over each vector).
-/

/-- Running sum `dotProduct += a[i] * b[i]` of `CosineSimilarity`
(src/unnamed/part_008). -/
def dotProduct (a b : List ℚ) : ℚ :=
  (a.zip b).foldl (fun s p => s + p.1 * p.2) 0

/-- Running sum `normA += a[i] * a[i]` (before the square root) of
`CosineSimilarity` (src/unnamed/part_008). -/
def sumSquares (a : List ℚ) : ℚ :=
  a.foldl (fun s x => s + x * x) 0

/-- Go `similarity.CosineSimilarity(a, b []float64) (float64, error)`
(src/unnamed/part_008 lines 10-31): errors iff the lengths differ, returns
exactly 0 when either norm is zero, otherwise the normalized dot product.
`sqrtF` stands for `math.Sqrt`. -/
def CosineSimilarity (sqrtF : ℚ → ℚ) (a b : List ℚ) : Except String ℚ :=
  if a.length ≠ b.length then
    .error ("vectors must have the same length: " ++ toString a.length
      ++ " vs " ++ toString b.length)
  else
    let dot := dotProduct a b
    let normA := sqrtF (sumSquares a)
    let normB := sqrtF (sumSquares b)
    if normA = 0 ∨ normB = 0 then .ok 0
    else .ok (dot / (normA * normB))

/-- Go `similarity.EuclideanDistance(a, b []float64) (float64, error)`
(src/unnamed/part_008 lines 33-45): errors iff the lengths differ, otherwise
the square root of the summed squared differences. -/
def EuclideanDistance (sqrtF : ℚ → ℚ) (a b : List ℚ) : Except String ℚ :=
  if a.length ≠ b.length then
    .error ("vectors must have the same length: " ++ toString a.length
      ++ " vs " ++ toString b.length)
  else
    .ok (sqrtF ((a.zip b).foldl (fun s p => s + (p.1 - p.2) * (p.1 - p.2)) 0))

/-- Index pairs visited by the nested loops
`for i := 0; i < n; i++ { for j := i + 1; j < n; j++ { ... } }`,
in visiting order. -/
def pairIndices (n : Nat) : List (Nat × Nat) :=
  (List.range n).flatMap (fun i => ((List.range n).drop (i + 1)).map (fun j => (i, j)))

/-- Value returned by `CosineSimilarity` on equal-length vectors (the
non-error branch of src/unnamed/part_008 lines 10-31). -/
def cosValue (sqrtF : ℚ → ℚ) (a b : List ℚ) : ℚ :=
  if sqrtF (sumSquares a) = 0 ∨ sqrtF (sumSquares b) = 0 then 0
  else dotProduct a b / (sqrtF (sumSquares a) * sqrtF (sumSquares b))

/-- Value returned by `EuclideanDistance` on equal-length vectors (the
non-error branch of src/unnamed/part_008 lines 33-45). -/
def euclidValue (sqrtF : ℚ → ℚ) (a b : List ℚ) : ℚ :=
  sqrtF ((a.zip b).foldl (fun s p => s + (p.1 - p.2) * (p.1 - p.2)) 0)

/-- Record built for the pair `(i, j)` by the loop body of
`CalculateAllSimilarities` (src/unnamed/part_008 lines 47-77) when both
vector computations succeed: `ChunkID1` is taken from `chunks[i]`,
`ChunkID2` from `chunks[j]`. -/
def recordOf (sqrtF : ℚ → ℚ) (chunks : List TextChunk) (p : Nat × Nat) :
    ChunkSimilarity :=
  let c1 := chunks.getD p.1 default
  let c2 := chunks.getD p.2 default
  { id := 0
    chunkID1 := c1.id
    chunkID2 := c2.id
    distance := euclidValue sqrtF c1.embedding c2.embedding
    similarity := cosValue sqrtF c1.embedding c2.embedding }

/-- Loop body and early-return structure of `CalculateAllSimilarities`
(src/unnamed/part_008 lines 47-77), recursing over the remaining index pairs
with the accumulated `similarities` slice.  A failing distance or similarity
computation returns `nil, fmt.Errorf(...)` at once; a success appends the
record and continues. -/
def calculateAllAux (sqrtF : ℚ → ℚ) (chunks : List TextChunk) :
    List (Nat × Nat) → List ChunkSimilarity → Except String (List ChunkSimilarity)
  | [], acc => .ok acc
  | p :: rest, acc =>
    let c1 := chunks.getD p.1 default
    let c2 := chunks.getD p.2 default
    match EuclideanDistance sqrtF c1.embedding c2.embedding with
    | .error e =>
      .error ("failed to calculate distance between chunks " ++ toString c1.id
        ++ " and " ++ toString c2.id ++ ": " ++ e)
    | .ok dist =>
      match CosineSimilarity sqrtF c1.embedding c2.embedding with
      | .error e =>
        .error ("failed to calculate similarity between chunks " ++ toString c1.id
          ++ " and " ++ toString c2.id ++ ": " ++ e)
      | .ok cosineSim =>
        calculateAllAux sqrtF chunks rest
          (acc ++ [{ id := 0, chunkID1 := c1.id, chunkID2 := c2.id,
                     distance := dist, similarity := cosineSim }])

/-- Go `cosineSimilarity(a, b []float64) float64` of the GUI store
(src/unnamed/part_007 lines 221-238): unlike the `similarity` package
version, a length mismatch returns 0.0 rather than an error, and the zero
test runs on the raw sums of squares before any square root.  The custom
Newton-method `sqrt` of the same file is passed as `sqrtF` (no claim below
depends on its values). -/
def cosineSimilarityStore (sqrtF : ℚ → ℚ) (a b : List ℚ) : ℚ :=
  if a.length ≠ b.length then 0
  else
    let dot := dotProduct a b
    let normA := sumSquares a
    let normB := sumSquares b
    if normA = 0 ∨ normB = 0 then 0
    else dot / (sqrtF normA * sqrtF normB)

/-- Pure core of `(*DB).CalculateSimilarities` of the GUI store
(src/unnamed/part_007 lines 169-191): the double loop between
`GetAllChunks` and `BatchInsertSimilarities`, building for each pair
`i < j` one record with `Similarity` from the store-level cosine routine and
`Distance: 1.0 - similarity`.  The function is total: no pair can fail. -/
def calculateSimilaritiesStore (sqrtF : ℚ → ℚ) (chunks : List TextChunk) :
    List ChunkSimilarity :=
  (pairIndices chunks.length).map (fun p =>
    let c1 := chunks.getD p.1 default
    let c2 := chunks.getD p.2 default
    let similarity := cosineSimilarityStore sqrtF c1.embedding c2.embedding
    let distance := 1 - similarity
    { id := 0, chunkID1 := c1.id, chunkID2 := c2.id,
      distance := distance, similarity := similarity })

/-! ## The batch insert of pkg/database/sqlite.go

The `chunk_similarities` table carries `UNIQUE(chunk_id_1, chunk_id_2)`
(`setupTables` in pkg/database/sqlite.go).  `BatchInsertSimilarities` opens a
transaction, defers `tx.Rollback()`, prepares the insert statement, executes
it once per record, and commits at the end.  SQLite transaction semantics
are modelled by explicit state passing: the committed table is a list of
rows; the transaction keeps a `pending` list; an `Exec` sees committed rows
plus the transaction's own pending inserts and fails on a uniqueness
violation; returning early leaves the committed table untouched (the
deferred rollback discards `pending`); `Commit` appends `pending` to the
table.  The modelled failure mode is the uniqueness violation — the
constraint the schema declares on this table. -/

/-- Uniqueness test of `UNIQUE(chunk_id_1, chunk_id_2)`: a new row conflicts
with a visible row when both chunk ids coincide. -/
def simConflict (rows : List ChunkSimilarity) (s : ChunkSimilarity) : Bool :=
  rows.any (fun r => r.chunkID1 == s.chunkID1 && r.chunkID2 == s.chunkID2)

/-- Loop of `BatchInsertSimilarities` (pkg/database/sqlite.go lines 142-166)
over the remaining records, carrying the transaction's pending inserts.
Returns the Go `error` result paired with the final committed table. -/
def batchInsertAux (table : List ChunkSimilarity) :
    List ChunkSimilarity → List ChunkSimilarity
      → Except String Unit × List ChunkSimilarity
  | [], pending => (.ok (), table ++ pending)
  | s :: rest, pending =>
    if simConflict (table ++ pending) s then
      (.error ("failed to insert similarity " ++ toString s.chunkID1 ++ "-"
        ++ toString s.chunkID2 ++ ": UNIQUE constraint failed"), table)
    else
      batchInsertAux table rest (pending ++ [s])

/-- Go `(*DB).BatchInsertSimilarities(similarities []ChunkSimilarity) error`
(pkg/database/sqlite.go lines 142-166), with the committed table made
explicit: begin transaction, insert every record, commit; any failing insert
returns its error with the table unchanged. -/
def BatchInsertSimilarities (table : List ChunkSimilarity)
    (sims : List ChunkSimilarity) : Except String Unit × List ChunkSimilarity :=
  batchInsertAux table sims []

/-- Go `similarity.CalculateAllSimilarities(chunks []database.TextChunk)
([]database.ChunkSimilarity, error)` (src/unnamed/part_008 lines 47-77):
iterates all pairs `i < j` in order, appending one record per pair, failing
immediately (returning `nil` and an error) on the first dimension mismatch. -/
def CalculateAllSimilarities (sqrtF : ℚ → ℚ) (chunks : List TextChunk) :
    Except String (List ChunkSimilarity) :=
  calculateAllAux sqrtF chunks (pairIndices chunks.length) []

/-! ## Go string primitives

Go strings are byte strings; all inputs considered here are ASCII, where a
`Char`-based model coincides with the byte-based one.  `strings.TrimSpace`
trims `unicode.IsSpace` characters from both ends; its ASCII fragment is the
six characters below. -/

/-- ASCII fragment of Go `unicode.IsSpace`: space, tab, newline, vertical
tab, form feed, carriage return. -/
def goIsSpace (c : Char) : Bool :=
  c = ' ' || c = '\t' || c = '\n' || c = '\x0b' || c = '\x0c' || c = '\r'

/-- Go `strings.TrimSpace` on the character-list model. -/
def goTrimSpaceL (cs : List Char) : List Char :=
  ((cs.dropWhile goIsSpace).reverse.dropWhile goIsSpace).reverse

/-- Go `strings.TrimSpace`. -/
def goTrimSpace (s : String) : String :=
  ⟨goTrimSpaceL s.data⟩

/-! ## The paragraph chunkers

Two implementations of `ChunkTextByParagraphs` live in the repository: the
line-scanner of the vendored simsies/blog module (src/unnamed/part_004) and
the splitter-based one of pkg/textproc/chunker.go.  File I/O
(`os.Open`, `bufio.Scanner`, `io.ReadAll`) is modelled away: the scanner
variant consumes the file's list of lines, the splitter variant consumes the
file's text.  The langchaingo `RecursiveCharacter` splitter is an external
collaborator and is passed in as a function. -/

/-- Scanner loop of `textproc.ChunkTextByParagraphs`
(src/unnamed/part_004 lines 11-55): blank lines (after trimming) flush the
current paragraph as a chunk carrying the running `chunkIndex`, which is
incremented only on a flush; non-blank lines are joined with single spaces;
a trailing non-empty paragraph is flushed at end of input. -/
def chunkLinesAux : List String → String → Int → List TextChunk → List TextChunk
  | [], currentChunk, chunkIndex, chunks =>
    if currentChunk.length > 0 then
      chunks ++ [{ id := 0, text := goTrimSpace currentChunk,
                   chunkIndex := chunkIndex, embedding := [], summary := "" }]
    else chunks
  | lineRaw :: rest, currentChunk, chunkIndex, chunks =>
    let line := goTrimSpace lineRaw
    if line = "" then
      if currentChunk.length > 0 then
        chunkLinesAux rest "" (chunkIndex + 1)
          (chunks ++ [{ id := 0, text := goTrimSpace currentChunk,
                        chunkIndex := chunkIndex, embedding := [], summary := "" }])
      else
        chunkLinesAux rest currentChunk chunkIndex chunks
    else
      chunkLinesAux rest
        (if currentChunk.length > 0 then currentChunk ++ " " ++ line
         else currentChunk ++ line)
        chunkIndex chunks

/-- Go `textproc.ChunkTextByParagraphs` of the vendored simsies/blog module
(src/unnamed/part_004), over the scanned lines of the input file. -/
def ChunkTextByParagraphs (lines : List String) : List TextChunk :=
  chunkLinesAux lines "" 0 []

/-- Conversion loop of `chunkTextWithSplitter`
(pkg/textproc/chunker.go lines 58-70): `for i, doc := range docs` trims each
doc and appends a chunk with `ChunkIndex: i` only when the trimmed text is
non-empty (the conditional append over an indexed range is a `filterMap`
over the enumerated list). -/
def chunksFromDocs (docs : List String) : List TextChunk :=
  docs.enum.filterMap (fun p =>
    let chunk := goTrimSpace p.2
    if chunk.length > 0 then
      some { id := 0, text := chunk, chunkIndex := (p.1 : Int),
             embedding := [], summary := "" }
    else none)

/-- Go `textproc.chunkTextWithSplitter` (pkg/textproc/chunker.go lines
29-72): trims the input, returns `nil, nil` on empty input, otherwise feeds
the text to the langchaingo splitter (here the parameter `splitText`) and
converts its docs. -/
def chunkTextWithSplitter (splitText : String → Except String (List String))
    (text : String) : Except String (List TextChunk) :=
  let t := goTrimSpace text
  if t.length = 0 then .ok []
  else
    match splitText t with
    | .error e => .error e
    | .ok docs => .ok (chunksFromDocs docs)

/-! ## The summary-cleaning transform (pkg/embedding/ollama.go)

`cleanSummaryResponse` (lines 224-257) applies, in order: removal of
`<think>...</think>` regions (regexp `(?s)<think>.*?</think>`), removal of
residual tags (regexp `<[^>]*>`), `TrimSpace`, a single case-insensitive
boilerplate-prefix strip (first matching prefix only, then `break`), one
`TrimSuffix` per punctuation mark in a fixed order, and a final `TrimSpace`.
`GetSummary` (lines 214-221) then splits the cleaned text into fields,
truncates to 10 words and joins with single spaces.

Go regexp replacement semantics (RE2): scan for the leftmost match; for
`<think>.*?</think>` the match starts at the first `<think>` and ends at
the first `</think>` after it (non-greedy); for `<[^>]*>` the match starts
at the first `<` followed eventually by a `>` and ends at the first such
`>`.  Matches are non-overlapping and scanning resumes after the match end,
so the replaced prefix is never rescanned.  Both scans are embedded below
with an explicit fuel argument for termination; each recursion step consumes
at least two characters of input, so fuel equal to the input length is
always sufficient and the fuel never runs out. -/

/-- ASCII fragment of Go `strings.ToLower`, applied characterwise.  All
boilerplate prefixes in the source are ASCII. -/
def goToLowerChar (c : Char) : Char :=
  if 'A' ≤ c ∧ c ≤ 'Z' then Char.ofNat (c.toNat + 32) else c

/-- Go `strings.ToLower` on the character-list model. -/
def goToLower (cs : List Char) : List Char :=
  cs.map goToLowerChar

/-- Position of the first occurrence of `pat` in the text, the primitive of
the leftmost-match regexp scans. -/
def findSub (pat : List Char) : List Char → Option Nat
  | [] => if pat.isEmpty then some 0 else none
  | c :: rest =>
    if pat.isPrefixOf (c :: rest) then some 0
    else (findSub pat rest).map (· + 1)

/-- Go `thinkRegex.ReplaceAllString(response, "")` with
`(?s)<think>.*?</think>` (pkg/embedding/ollama.go lines 226-227): removes
each leftmost region from a `<think>` to the first `</think>` after it;
a `<think>` with no later `</think>` matches nothing and is kept. -/
def removeThinkAux : Nat → List Char → List Char
  | 0, cs => cs
  | fuel + 1, cs =>
    match findSub ("<think>".data) cs with
    | none => cs
    | some i =>
      let after := cs.drop (i + 7)
      match findSub ("</think>".data) after with
      | none => cs
      | some j => cs.take i ++ removeThinkAux fuel (after.drop (j + 8))

/-- Fuelled `<think>` scan at adequate fuel. -/
def removeThink (cs : List Char) : List Char :=
  removeThinkAux cs.length cs

/-- Go `tagRegex.ReplaceAllString(cleaned, "")` with `<[^>]*>`
(pkg/embedding/ollama.go lines 230-231): removes each leftmost span from a
`<` to the first `>` after it; a `<` with no later `>` matches nothing (and
then no later `<` can match either). -/
def removeTagsAux : Nat → List Char → List Char
  | 0, cs => cs
  | fuel + 1, cs =>
    match findSub ['<'] cs with
    | none => cs
    | some i =>
      let after := cs.drop (i + 1)
      match findSub ['>'] after with
      | none => cs
      | some j => cs.take i ++ removeTagsAux fuel (after.drop (j + 1))

/-- Fuelled tag scan at adequate fuel. -/
def removeTags (cs : List Char) : List Char :=
  removeTagsAux cs.length cs

/-- Go `strings.TrimSuffix`: removes at most one trailing occurrence. -/
def goTrimSuffix (cs suffix : List Char) : List Char :=
  if suffix.isSuffixOf cs then cs.take (cs.length - suffix.length) else cs

/-- Boilerplate lead-in phrases of `cleanSummaryResponse`
(pkg/embedding/ollama.go lines 237-241), in source order. -/
def summaryLeadIns : List String :=
  ["Summary:", "Topic:", "Key words:", "Keywords:",
   "The text is about", "This text discusses", "The topic is",
   "Main topic:", "Subject:", "Theme:"]

/-- Prefix-stripping loop of `cleanSummaryResponse` (lines 243-248): the
first phrase matching case-insensitively is cut off, the remainder is
trimmed, and the loop breaks; later phrases are not reconsidered. -/
def stripLeadIns : List String → List Char → List Char
  | [], cs => cs
  | p :: rest, cs =>
    if (goToLower p.data).isPrefixOf (goToLower cs) then
      goTrimSpaceL (cs.drop p.data.length)
    else stripLeadIns rest cs

/-- Punctuation marks trimmed from the end (lines 251-254), in source
order; each is trimmed at most once by `strings.TrimSuffix`. -/
def punctuationMarks : List (List Char) :=
  [['.'], ['!'], ['?'], [':'], [';'], [',']]

/-- Trailing-punctuation pass of `cleanSummaryResponse` (lines 251-254). -/
def stripTrailingPunct (cs : List Char) : List Char :=
  punctuationMarks.foldl goTrimSuffix cs

/-- Go `cleanSummaryResponse(response string) string`
(pkg/embedding/ollama.go lines 224-257). -/
def cleanSummaryResponse (cs : List Char) : List Char :=
  let c1 := removeThink cs
  let c2 := removeTags c1
  let c3 := goTrimSpaceL c2
  let c4 := stripLeadIns summaryLeadIns c3
  let c5 := stripTrailingPunct c4
  goTrimSpaceL c5

/-- Go `strings.Fields`: the whitespace-separated words of the text, with
the word being accumulated carried in reverse. -/
def goFieldsAux : List Char → List Char → List (List Char)
  | [], cur => if cur.isEmpty then [] else [cur.reverse]
  | c :: rest, cur =>
    if goIsSpace c then
      if cur.isEmpty then goFieldsAux rest []
      else cur.reverse :: goFieldsAux rest []
    else goFieldsAux rest (c :: cur)

/-- Go `strings.Fields`. -/
def goFields (cs : List Char) : List (List Char) :=
  goFieldsAux cs []

/-- Go `strings.Join(words, " ")`. -/
def joinSpace : List (List Char) → List Char
  | [] => []
  | [w] => w
  | w :: rest => w ++ ' ' :: joinSpace rest

/-- Summary post-processing of `GetSummary` (pkg/embedding/ollama.go lines
214-221): clean the raw model response, split into words, truncate to at
most 10 words, join with single spaces.  This is the summary-cleaning
transform of the specification. -/
def summaryTransform (s : String) : String :=
  let cleaned := cleanSummaryResponse s.data
  let words := goFields cleaned
  let kept := if words.length > 10 then words.take 10 else words
  ⟨joinSpace kept⟩

/-! ## The concurrent batch operations (pkg/embedding/ollama.go)

`GetEmbeddingsConcurrent` (lines 259-310) and `GetSummariesConcurrent`
(lines 312-363) share one structure: start `maxWorkers` workers on a jobs
channel buffered to `len(chunks)`, send one indexed job per chunk, close the
channel, collect one result per job from a results channel (also buffered to
`len(chunks)`), and either return the assembled slice with a nil error or
`nil` with an aggregate error listing every failure.

The collection loop is embedded as a fold over the list of results in their
arrival order; quantifying over every arrival order that delivers exactly
one result per index covers every schedule of every worker count, because
each job is processed exactly once by exactly one worker and workers only
ever `continue` past failures (no short-circuit).  The progress callback
only reports counts and is not modelled.  The Go code wraps the collected
`errors` slice into a single `fmt.Errorf("... errors occurred: %v", errors)`
value; the model keeps the slice of per-chunk messages, each of the form
`chunk <Index>: <cause>` exactly as built at lines 299 and 352. -/

/-- Per-chunk failure message `fmt.Errorf("chunk %d: %w", result.Index,
result.Error)` of the collection loops, or `none` for a success. -/
def failMsg (p : Nat × Except String TextChunk) : Option String :=
  match p.2 with
  | .error e => some ("chunk " ++ toString p.1 ++ ": " ++ e)
  | .ok _ => none

/-- Result-collection loop of `GetEmbeddingsConcurrent` (lines 286-310) and
`GetSummariesConcurrent` (lines 339-363): a pre-sized slice of zero-valued
chunks is written at each successful result's index, failures are appended
to the errors slice, and the call returns `nil` plus the errors when any
job failed, or the assembled slice plus no error otherwise. -/
def collectStep (acc : List TextChunk × List String)
    (r : Nat × Except String TextChunk) : List TextChunk × List String :=
  match r.2 with
  | .error e => (acc.1, acc.2 ++ ["chunk " ++ toString r.1 ++ ": " ++ e])
  | .ok c => (acc.1.set r.1 c, acc.2)

def collectResults (n : Nat) (results : List (Nat × Except String TextChunk)) :
    Option (List TextChunk) × List String :=
  let final := results.foldl collectStep (List.replicate n default, [])
  if final.2.isEmpty then (some final.1, []) else (none, final.2)

/-- One iteration of `worker` (pkg/embedding/ollama.go lines 365-378) on the
job for index `job.1` carrying chunk `job.2`: a failing `GetEmbedding`
produces an error result, otherwise the chunk is returned with its
`Embedding` field set. -/
def embeddingWorkerStep (getEmbedding : String → Except String (List ℚ))
    (job : Nat × TextChunk) : Nat × Except String TextChunk :=
  (job.1,
    match getEmbedding job.2.text with
    | .error e => .error e
    | .ok v => .ok { job.2 with embedding := v })

/-- One iteration of `summaryWorker` (pkg/embedding/ollama.go lines 380-393):
as `worker`, setting the `Summary` field via `GetSummary`. -/
def summaryWorkerStep (getSummary : String → Except String String)
    (job : Nat × TextChunk) : Nat × Except String TextChunk :=
  (job.1,
    match getSummary job.2.text with
    | .error e => .error e
    | .ok v => .ok { job.2 with summary := v })

/-- Model of `GetEmbeddingsConcurrent` in which job `i` carries the chunk at
input position `i` (the behaviour of the send loop under per-iteration
`range` variables, Go 1.22 and later) and `order` is the arrival order of
results at the collection loop. -/
def getEmbeddingsConcurrentModel (getEmbedding : String → Except String (List ℚ))
    (chunks : List TextChunk) (order : List Nat) :
    Option (List TextChunk) × List String :=
  collectResults chunks.length
    (order.map (fun i => embeddingWorkerStep getEmbedding (i, chunks.getD i default)))

/-- Model of `GetSummariesConcurrent`, as `getEmbeddingsConcurrentModel`. -/
def getSummariesConcurrentModel (getSummary : String → Except String String)
    (chunks : List TextChunk) (order : List Nat) :
    Option (List TextChunk) × List String :=
  collectResults chunks.length
    (order.map (fun i => summaryWorkerStep getSummary (i, chunks.getD i default)))

/-- Aggregate-failure contract of one concurrent batch call whose job `i`
eventually produces `outcome i`: the error slice is (a permutation of) the
failure messages of all `n` jobs, every failing index appears with its
cause, any failure forces a `nil` slice with a non-nil error, and the slice
is `nil` exactly when the error is non-nil. -/
def aggregationContract (n : Nat) (outcome : Nat → Except String TextChunk)
    (result : Option (List TextChunk) × List String) : Prop :=
  result.2.Perm ((List.range n).filterMap (fun i => failMsg (i, outcome i)))
  ∧ (∀ i, i < n → ∀ e, outcome i = .error e →
      ("chunk " ++ toString i ++ ": " ++ e) ∈ result.2)
  ∧ ((∃ i, i < n ∧ ∃ e, outcome i = .error e) →
      result.1 = none ∧ result.2 ≠ [])
  ∧ (result.1 = none ↔ result.2 ≠ [])

/-- Model of `GetEmbeddingsConcurrent` under the Go semantics the repository
actually builds with.  The release workflow pins `go-version: '1.21'`, and
the README and demo.sh require "Go 1.21 or later"; before Go 1.22 the send
loop

    for i, chunk := range chunks {
        jobs <- EmbeddingJob{Index: i, Chunk: &chunk}
    }

(lines 275-278) binds `chunk` once per loop, not per iteration, so every
job carries a pointer to the one shared loop variable.  The jobs channel is
buffered to `len(chunks)`, so the send loop never blocks; this definition
follows the legal (and typical) schedule in which the send loop completes
before any worker dereferences a job pointer, a single worker then drains
the queue in FIFO order, and the collection loop runs last.  Consequences,
read off the source under that schedule: the shared variable's `Text` is
the last input chunk's text when every job reads it, so every job calls
`GetEmbedding` on the last chunk's text; a success stores the embedding in
the shared struct; and when the collector finally copies `*result.Chunk`
into slot `result.Index`, every successful slot receives the same final
value of the shared variable.  `GetSummariesConcurrent` has the identical
send loop at lines 328-331. -/
def getEmbeddingsConcurrentGo121 (getEmbedding : String → Except String (List ℚ))
    (chunks : List TextChunk) : Option (List TextChunk) × List String :=
  match chunks.getLast? with
  | none => (some [], [])
  | some last =>
    match getEmbedding last.text with
    | .error e =>
      collectResults chunks.length
        ((List.range chunks.length).map (fun i => (i, .error e)))
    | .ok v =>
      collectResults chunks.length
        ((List.range chunks.length).map (fun i =>
          (i, .ok { last with embedding := v })))

/-! ## Helper lemmas about `pairIndices` -/

theorem length_flatMap {α β : Type} (l : List α) (f : α → List β) :
    (l.flatMap f).length = (l.map fun a => (f a).length).sum := by
  induction l with
  | nil => simp
  | cons a l ih => simp [List.flatMap_cons, ih]

theorem sum_map_range (f : Nat → Nat) (n : Nat) :
    ((List.range n).map f).sum = ∑ i in Finset.range n, f i := by
  induction n with
  | zero => simp
  | succ n ih => simp [List.range_succ, Finset.sum_range_succ, ih]

theorem pairIndices_length (n : Nat) : (pairIndices n).length = n * (n - 1) / 2 := by
  rw [pairIndices, length_flatMap]
  simp only [List.length_map, List.length_drop, List.length_range]
  rw [sum_map_range]
  have h1 : ∀ i, n - (i + 1) = n - 1 - i := by intro i; omega
  calc ∑ i in Finset.range n, (n - (i + 1))
      = ∑ i in Finset.range n, (n - 1 - i) := by
        exact Finset.sum_congr rfl fun i _ => h1 i
    _ = ∑ i in Finset.range n, i := Finset.sum_range_reflect (fun i => i) n
    _ = n * (n - 1) / 2 := Finset.sum_range_id n

theorem mem_drop_range {n m j : Nat} : j ∈ (List.range n).drop m ↔ m ≤ j ∧ j < n := by
  constructor
  · intro h
    rcases List.mem_iff_getElem.mp h with ⟨k, hk, hkj⟩
    have hk' : m + k < n := by
      simp only [List.length_drop, List.length_range] at hk
      omega
    rw [List.getElem_drop, List.getElem_range] at hkj
    omega
  · rintro ⟨h1, h2⟩
    apply List.mem_iff_getElem.mpr
    refine ⟨j - m, ?_, ?_⟩
    · simp only [List.length_drop, List.length_range]; omega
    · rw [List.getElem_drop, List.getElem_range]; omega

theorem mem_pairIndices {n i j : Nat} :
    (i, j) ∈ pairIndices n ↔ i < j ∧ j < n := by
  rw [pairIndices, List.mem_flatMap]
  constructor
  · rintro ⟨a, _, hmem⟩
    rcases List.mem_map.mp hmem with ⟨b, hb, hab⟩
    obtain ⟨hb1, hb2⟩ := mem_drop_range.mp hb
    cases hab
    omega
  · rintro ⟨hij, hjn⟩
    refine ⟨i, List.mem_range.mpr (lt_trans hij hjn), ?_⟩
    exact List.mem_map.mpr ⟨j, mem_drop_range.mpr ⟨hij, hjn⟩, rfl⟩

theorem pairIndices_nodup (n : Nat) : (pairIndices n).Nodup := by
  rw [pairIndices, List.nodup_flatMap]
  constructor
  · intro i _
    exact ((List.nodup_range n).sublist (List.drop_sublist _ _)).map
      (fun a b hab => by simpa using hab)
  · have := List.pairwise_lt_range n
    refine this.imp ?_
    intro a b hab x hx1 hx2
    rcases List.mem_map.mp hx1 with ⟨u, _, hu⟩
    rcases List.mem_map.mp hx2 with ⟨v, _, hv⟩
    rw [← hu] at hv
    cases hv
    omega

/-! ## Behaviour of the vector routines on matched and mismatched lengths -/

theorem cosineSimilarity_ok (sqrtF : ℚ → ℚ) {a b : List ℚ}
    (h : a.length = b.length) :
    CosineSimilarity sqrtF a b = .ok (cosValue sqrtF a b) := by
  rw [CosineSimilarity, if_neg (by simp [h]), cosValue]
  by_cases hc : sqrtF (sumSquares a) = 0 ∨ sqrtF (sumSquares b) = 0 <;> simp [hc]

theorem euclideanDistance_ok (sqrtF : ℚ → ℚ) {a b : List ℚ}
    (h : a.length = b.length) :
    EuclideanDistance sqrtF a b = .ok (euclidValue sqrtF a b) := by
  rw [EuclideanDistance, if_neg (by simp [h])]
  rfl

theorem cosineSimilarity_mismatch (sqrtF : ℚ → ℚ) {a b : List ℚ}
    (h : a.length ≠ b.length) :
    CosineSimilarity sqrtF a b = .error ("vectors must have the same length: "
      ++ toString a.length ++ " vs " ++ toString b.length) := by
  rw [CosineSimilarity, if_pos h]

theorem euclideanDistance_mismatch (sqrtF : ℚ → ℚ) {a b : List ℚ}
    (h : a.length ≠ b.length) :
    EuclideanDistance sqrtF a b = .error ("vectors must have the same length: "
      ++ toString a.length ++ " vs " ++ toString b.length) := by
  rw [EuclideanDistance, if_pos h]

/-- Embedding-length agreement of a pair of chunk positions, the condition
under which the loop body of `CalculateAllSimilarities` succeeds. -/
def lensMatch (chunks : List TextChunk) (p : Nat × Nat) : Prop :=
  (chunks.getD p.1 default).embedding.length
    = (chunks.getD p.2 default).embedding.length

instance (chunks : List TextChunk) (p : Nat × Nat) :
    Decidable (lensMatch chunks p) := by
  unfold lensMatch; infer_instance

theorem calculateAllAux_ok (sqrtF : ℚ → ℚ) (chunks : List TextChunk)
    (ps : List (Nat × Nat)) (acc : List ChunkSimilarity)
    (h : ∀ p ∈ ps, lensMatch chunks p) :
    calculateAllAux sqrtF chunks ps acc
      = .ok (acc ++ ps.map (recordOf sqrtF chunks)) := by
  induction ps generalizing acc with
  | nil => simp [calculateAllAux]
  | cons q rest ih =>
    have hq : lensMatch chunks q := h q (by simp)
    rw [calculateAllAux]
    simp only [euclideanDistance_ok sqrtF hq, cosineSimilarity_ok sqrtF hq]
    rw [ih _ (fun p hp => h p (List.mem_cons_of_mem _ hp))]
    simp [recordOf]

theorem calculateAllAux_error (sqrtF : ℚ → ℚ) (chunks : List TextChunk)
    (ps : List (Nat × Nat)) (acc : List ChunkSimilarity)
    (h : ∃ p ∈ ps, ¬ lensMatch chunks p) :
    ∃ e, calculateAllAux sqrtF chunks ps acc = .error e := by
  induction ps generalizing acc with
  | nil => simp at h
  | cons q rest ih =>
    by_cases hq : lensMatch chunks q
    · obtain ⟨p, hp, hne⟩ := h
      have hrest : ∃ p ∈ rest, ¬ lensMatch chunks p := by
        rcases List.mem_cons.mp hp with rfl | hmem
        · exact absurd hq hne
        · exact ⟨p, hmem, hne⟩
      rw [calculateAllAux]
      simp only [euclideanDistance_ok sqrtF hq, cosineSimilarity_ok sqrtF hq]
      exact ih _ hrest
    · rw [calculateAllAux]
      simp only [euclideanDistance_mismatch sqrtF hq]
      exact ⟨_, rfl⟩

theorem getD_mem_of_lt {l : List TextChunk} {i : Nat} (h : i < l.length) :
    l.getD i default ∈ l := by
  rw [List.getD_eq_getElem l default h]
  exact List.getElem_mem h

theorem sumSquares_of_zeroes {a : List ℚ} (h : ∀ x ∈ a, x = 0) :
    sumSquares a = 0 := by
  have general : ∀ (l : List ℚ) (c : ℚ), (∀ x ∈ l, x = 0) →
      l.foldl (fun s x => s + x * x) c = c := by
    intro l
    induction l with
    | nil => intro c _; rfl
    | cons y t ih =>
      intro c hc
      have hy : y = 0 := hc y (by simp)
      simp only [List.foldl_cons, hy, mul_zero, add_zero]
      exact ih c (fun x hx => hc x (List.mem_cons_of_mem _ hx))
  exact general a 0 h

/-! ## Claims C3, C4, C5: the similarity engine (src/unnamed/part_008) -/

/-- C3: for every input sequence of N chunks whose embedding vectors all have
the same length, `CalculateAllSimilarities` succeeds and returns exactly
N*(N-1)/2 `ChunkSimilarity` records, one per unordered pair of input
positions, with no sampling and no thresholding; in particular zero records
for N = 0 and N = 1 (the formula evaluates to 0 there). -/
theorem calculateAllSimilarities_complete (sqrtF : ℚ → ℚ)
    (chunks : List TextChunk) (d : Nat)
    (hlen : ∀ c ∈ chunks, c.embedding.length = d) :
    ∃ l, CalculateAllSimilarities sqrtF chunks = .ok l
      ∧ l.length = chunks.length * (chunks.length - 1) / 2 := by
  have hall : ∀ p ∈ pairIndices chunks.length, lensMatch chunks p := by
    rintro ⟨i, j⟩ hp
    obtain ⟨hij, hjn⟩ := mem_pairIndices.mp hp
    have hi : i < chunks.length := lt_trans hij hjn
    unfold lensMatch
    rw [hlen _ (getD_mem_of_lt hi), hlen _ (getD_mem_of_lt hjn)]
  rw [CalculateAllSimilarities, calculateAllAux_ok sqrtF chunks _ [] hall]
  exact ⟨_, rfl, by simp [pairIndices_length]⟩

/-- C3 witness: three chunks with one-dimensional embeddings produce exactly
3 = 3*2/2 records. -/
theorem calculateAllSimilarities_complete_witness :
    (∀ c ∈ [(⟨1, "a", 0, [1], ""⟩ : TextChunk), ⟨2, "b", 1, [2], ""⟩,
        ⟨3, "c", 2, [3], ""⟩], c.embedding.length = 1)
    ∧ ∃ l, CalculateAllSimilarities (fun q => q)
        [⟨1, "a", 0, [1], ""⟩, ⟨2, "b", 1, [2], ""⟩, ⟨3, "c", 2, [3], ""⟩] = .ok l
        ∧ l.length = 3 := by
  refine ⟨by decide, ?_⟩
  simpa using calculateAllSimilarities_complete (fun q => q)
    [⟨1, "a", 0, [1], ""⟩, ⟨2, "b", 1, [2], ""⟩, ⟨3, "c", 2, [3], ""⟩] 1 (by decide)

/-- C4: if the input to `CalculateAllSimilarities` contains a compared pair
of chunks whose embedding vectors have different lengths, the call returns an
error and no similarity records (the Go function returns `nil` together with
the error, modelled by the `Except.error` constructor carrying no record
list); correspondingly `CosineSimilarity` and `EuclideanDistance` each return
an error whenever their two argument vectors differ in length. -/
theorem dimensionMismatch_failsClosed (sqrtF : ℚ → ℚ) (chunks : List TextChunk)
    (i j : Nat) (hij : i < j) (hjn : j < chunks.length)
    (hne : (chunks.getD i default).embedding.length
      ≠ (chunks.getD j default).embedding.length) :
    (∃ e, CalculateAllSimilarities sqrtF chunks = .error e)
    ∧ (∀ a b : List ℚ, a.length ≠ b.length →
        (∃ e, CosineSimilarity sqrtF a b = .error e)
        ∧ (∃ e, EuclideanDistance sqrtF a b = .error e)) := by
  constructor
  · exact calculateAllAux_error sqrtF chunks _ []
      ⟨(i, j), mem_pairIndices.mpr ⟨hij, hjn⟩, hne⟩
  · intro a b hab
    exact ⟨⟨_, cosineSimilarity_mismatch sqrtF hab⟩,
      ⟨_, euclideanDistance_mismatch sqrtF hab⟩⟩

/-- C4 witness: a length-4 vector compared against a length-5 vector makes
the whole run fail, and both vector routines reject the pair. -/
theorem dimensionMismatch_failsClosed_witness :
    (∃ e, CalculateAllSimilarities (fun q => q)
      [⟨1, "a", 0, [1, 1, 1, 1], ""⟩, ⟨2, "b", 1, [1, 1, 1, 1, 1], ""⟩]
      = .error e)
    ∧ (∃ e, CosineSimilarity (fun q => q) [1, 1, 1, 1] [1, 1, 1, 1, 1]
      = .error e)
    ∧ (∃ e, EuclideanDistance (fun q => q) [1, 1, 1, 1] [1, 1, 1, 1, 1]
      = .error e) := by
  have h := dimensionMismatch_failsClosed (fun q => q)
    [⟨1, "a", 0, [1, 1, 1, 1], ""⟩, ⟨2, "b", 1, [1, 1, 1, 1, 1], ""⟩]
    0 1 (by decide) (by decide) (by decide)
  exact ⟨h.1, (h.2 [1, 1, 1, 1] [1, 1, 1, 1, 1] (by decide)).1,
    (h.2 [1, 1, 1, 1] [1, 1, 1, 1, 1] (by decide)).2⟩

/-- C5: for every pair of equal-length vectors where at least one vector has
zero magnitude (all components zero), `CosineSimilarity` returns the value
exactly 0 and no error.  The hypothesis `sqrtF 0 = 0` records the IEEE-754
fact `math.Sqrt(0) == 0` used by the zero test of the source. -/
theorem cosineSimilarity_zeroVector (sqrtF : ℚ → ℚ) (a b : List ℚ)
    (hlen : a.length = b.length)
    (hzero : (∀ x ∈ a, x = 0) ∨ (∀ x ∈ b, x = 0))
    (hsqrt : sqrtF 0 = 0) :
    CosineSimilarity sqrtF a b = .ok 0 := by
  rw [cosineSimilarity_ok sqrtF hlen, cosValue]
  rcases hzero with hz | hz
  · rw [if_pos (Or.inl (by rw [sumSquares_of_zeroes hz, hsqrt]))]
  · rw [if_pos (Or.inr (by rw [sumSquares_of_zeroes hz, hsqrt]))]

/-- C5 witness: the all-zero 3-vector against [1, 2, 3] yields exactly 0. -/
theorem cosineSimilarity_zeroVector_witness :
    CosineSimilarity (fun q => q) [0, 0, 0] [1, 2, 3] = .ok 0 :=
  cosineSimilarity_zeroVector (fun q => q) [0, 0, 0] [1, 2, 3]
    (by decide) (Or.inl (by decide)) rfl

/-! ## Claim C8: id orientation and uniqueness of the pairing -/

theorem chunkId_inj {chunks : List TextChunk}
    (hids : (chunks.map TextChunk.id).Nodup) {i j : Nat}
    (hi : i < chunks.length) (hj : j < chunks.length)
    (h : (chunks.getD i default).id = (chunks.getD j default).id) : i = j := by
  rw [List.getD_eq_getElem _ _ hi, List.getD_eq_getElem _ _ hj] at h
  have hinj := List.nodup_iff_injective_get.mp hids
  have hmi : i < (chunks.map TextChunk.id).length := by simpa using hi
  have hmj : j < (chunks.map TextChunk.id).length := by simpa using hj
  have h' : (chunks.map TextChunk.id).get ⟨i, hmi⟩
      = (chunks.map TextChunk.id).get ⟨j, hmj⟩ := by
    simpa [List.get_eq_getElem, List.getElem_map] using h
  simpa using congrArg Fin.val (hinj h')

/-- C8: every `ChunkSimilarity` record produced by `CalculateAllSimilarities`
has `ChunkID1` equal to the id of the lower-positioned chunk of its pair and
`ChunkID2` equal to the id of the higher-positioned one (the engine iterates
i < j); under the precondition that all input chunk ids are distinct, every
record satisfies `ChunkID1 ≠ ChunkID2` and each unordered pair of chunks
yields exactly one record (the record list has no duplicates and for every
pair of positions exactly one member carries its two ids, in either
orientation). -/
theorem similarity_pairing_invariant (sqrtF : ℚ → ℚ) (chunks : List TextChunk)
    (d : Nat) (hlen : ∀ c ∈ chunks, c.embedding.length = d)
    (hids : (chunks.map TextChunk.id).Nodup) :
    ∃ l, CalculateAllSimilarities sqrtF chunks = .ok l
      ∧ (∀ r ∈ l, ∃ i j, i < j ∧ j < chunks.length
          ∧ r.chunkID1 = (chunks.getD i default).id
          ∧ r.chunkID2 = (chunks.getD j default).id)
      ∧ (∀ r ∈ l, r.chunkID1 ≠ r.chunkID2)
      ∧ l.Nodup
      ∧ (∀ i j, i < j → j < chunks.length →
          ∃! r, r ∈ l
            ∧ ((r.chunkID1 = (chunks.getD i default).id
                  ∧ r.chunkID2 = (chunks.getD j default).id)
              ∨ (r.chunkID1 = (chunks.getD j default).id
                  ∧ r.chunkID2 = (chunks.getD i default).id))) := by
  have hall : ∀ p ∈ pairIndices chunks.length, lensMatch chunks p := by
    rintro ⟨i, j⟩ hp
    obtain ⟨hij, hjn⟩ := mem_pairIndices.mp hp
    unfold lensMatch
    rw [hlen _ (getD_mem_of_lt (lt_trans hij hjn)), hlen _ (getD_mem_of_lt hjn)]
  rw [CalculateAllSimilarities, calculateAllAux_ok sqrtF chunks _ [] hall]
  refine ⟨_, rfl, ?_, ?_, ?_, ?_⟩
  · intro r hr
    have hr2 : ∃ a b, (a, b) ∈ pairIndices chunks.length
        ∧ recordOf sqrtF chunks (a, b) = r := by simpa using hr
    obtain ⟨i, j, hp, hrec⟩ := hr2
    obtain ⟨hij, hjn⟩ := mem_pairIndices.mp hp
    exact ⟨i, j, hij, hjn, by rw [← hrec]; rfl, by rw [← hrec]; rfl⟩
  · intro r hr heq
    have hr2 : ∃ a b, (a, b) ∈ pairIndices chunks.length
        ∧ recordOf sqrtF chunks (a, b) = r := by simpa using hr
    obtain ⟨i, j, hp, hrec⟩ := hr2
    obtain ⟨hij, hjn⟩ := mem_pairIndices.mp hp
    have h1 : r.chunkID1 = (chunks.getD i default).id := by rw [← hrec]; rfl
    have h2 : r.chunkID2 = (chunks.getD j default).id := by rw [← hrec]; rfl
    have : i = j := chunkId_inj hids (lt_trans hij hjn) hjn
      (by rw [← h1, ← h2, heq])
    omega
  · simp only [List.nil_append]
    refine List.Nodup.map_on ?_ (pairIndices_nodup chunks.length)
    rintro ⟨i, j⟩ hp ⟨i2, j2⟩ hp2 heq
    obtain ⟨hij, hjn⟩ := mem_pairIndices.mp hp
    obtain ⟨hij2, hjn2⟩ := mem_pairIndices.mp hp2
    have h1 : (chunks.getD i default).id = (chunks.getD i2 default).id :=
      congrArg ChunkSimilarity.chunkID1 heq
    have h2 : (chunks.getD j default).id = (chunks.getD j2 default).id :=
      congrArg ChunkSimilarity.chunkID2 heq
    have hi := chunkId_inj hids (lt_trans hij hjn) (lt_trans hij2 hjn2) h1
    have hj := chunkId_inj hids hjn hjn2 h2
    simp [hi, hj]
  · intro i j hij hjn
    refine ⟨recordOf sqrtF chunks (i, j), ⟨?_, Or.inl ⟨rfl, rfl⟩⟩, ?_⟩
    · have hmem : ∃ a b, (a, b) ∈ pairIndices chunks.length
          ∧ recordOf sqrtF chunks (a, b) = recordOf sqrtF chunks (i, j) :=
        ⟨i, j, mem_pairIndices.mpr ⟨hij, hjn⟩, rfl⟩
      simpa using hmem
    · rintro r ⟨hr, hmatch⟩
      have hr2 : ∃ a b, (a, b) ∈ pairIndices chunks.length
          ∧ recordOf sqrtF chunks (a, b) = r := by simpa using hr
      obtain ⟨i2, j2, hp, hrec⟩ := hr2
      obtain ⟨hij2, hjn2⟩ := mem_pairIndices.mp hp
      have h1 : r.chunkID1 = (chunks.getD i2 default).id := by rw [← hrec]; rfl
      have h2 : r.chunkID2 = (chunks.getD j2 default).id := by rw [← hrec]; rfl
      rcases hmatch with ⟨e1, e2⟩ | ⟨e1, e2⟩
      · have hii : i2 = i := chunkId_inj hids (lt_trans hij2 hjn2)
          (lt_trans hij hjn) (by rw [← h1, ← e1])
        have hjj : j2 = j := chunkId_inj hids hjn2 hjn (by rw [← h2, ← e2])
        subst hii
        subst hjj
        rw [← hrec]
      · have hii : i2 = j := chunkId_inj hids (lt_trans hij2 hjn2) hjn
          (by rw [← h1, ← e1])
        have hjj : j2 = i := chunkId_inj hids hjn2 (lt_trans hij hjn)
          (by rw [← h2, ← e2])
        omega

/-- C8 witness: three chunks with distinct ids 10, 20, 30 satisfy the pairing
invariant. -/
theorem similarity_pairing_invariant_witness :
    (∀ c ∈ [(⟨10, "a", 0, [1], ""⟩ : TextChunk), ⟨20, "b", 1, [2], ""⟩,
        ⟨30, "c", 2, [3], ""⟩], c.embedding.length = 1)
    ∧ ∃ l, CalculateAllSimilarities (fun q => q)
        [(⟨10, "a", 0, [1], ""⟩ : TextChunk), ⟨20, "b", 1, [2], ""⟩,
          ⟨30, "c", 2, [3], ""⟩] = .ok l
        ∧ (∀ r ∈ l, r.chunkID1 ≠ r.chunkID2) := by
  refine ⟨by decide, ?_⟩
  obtain ⟨l, hok, _, hne, _, _⟩ := similarity_pairing_invariant (fun q => q)
    [(⟨10, "a", 0, [1], ""⟩ : TextChunk), ⟨20, "b", 1, [2], ""⟩,
      ⟨30, "c", 2, [3], ""⟩] 1 (by decide) (by decide)
  exact ⟨l, hok, hne⟩

/-! ## Claim C10: the store-level similarity pass of the GUI application -/

/-- C10: the store-level `CalculateSimilarities` operation (the GUI
application's similarity path, distinct from the Similarity Engine of the
specification) produces, for every pair i < j of stored chunks, a record
satisfying Distance = 1 - Similarity rather than the Euclidean distance of
the embeddings, and it never errors on embedding-length mismatch (the
builder is a total function): its internal `cosineSimilarity` returns 0 for
vectors of differing lengths, so mismatched pairs are recorded with
Similarity 0 and Distance 1. -/
theorem storeSimilarities_distance_is_complement (sqrtF : ℚ → ℚ)
    (chunks : List TextChunk) :
    (calculateSimilaritiesStore sqrtF chunks).length
        = chunks.length * (chunks.length - 1) / 2
    ∧ (∀ r ∈ calculateSimilaritiesStore sqrtF chunks,
        r.distance = 1 - r.similarity)
    ∧ (∀ a b : List ℚ, a.length ≠ b.length →
        cosineSimilarityStore sqrtF a b = 0)
    ∧ (∀ i j, i < j → j < chunks.length →
        (chunks.getD i default).embedding.length
          ≠ (chunks.getD j default).embedding.length →
        ∃ r ∈ calculateSimilaritiesStore sqrtF chunks,
          r.chunkID1 = (chunks.getD i default).id
          ∧ r.chunkID2 = (chunks.getD j default).id
          ∧ r.similarity = 0 ∧ r.distance = 1) := by
  refine ⟨?_, ?_, ?_, ?_⟩
  · simp [calculateSimilaritiesStore, pairIndices_length]
  · intro r hr
    have hr2 : ∃ a b, (a, b) ∈ pairIndices chunks.length
        ∧ (let c1 := chunks.getD a default
           let c2 := chunks.getD b default
           let similarity := cosineSimilarityStore sqrtF c1.embedding c2.embedding
           let distance := 1 - similarity
           ({ id := 0, chunkID1 := c1.id, chunkID2 := c2.id,
              distance := distance, similarity := similarity } : ChunkSimilarity))
          = r := by
      simpa [calculateSimilaritiesStore] using hr
    obtain ⟨a, b, _, hrec⟩ := hr2
    rw [← hrec]
  · intro a b hab
    rw [cosineSimilarityStore, if_pos hab]
  · intro i j hij hjn hne
    refine ⟨_, List.mem_map.mpr ⟨(i, j), mem_pairIndices.mpr ⟨hij, hjn⟩, rfl⟩,
      rfl, rfl, ?_, ?_⟩
    · show cosineSimilarityStore sqrtF _ _ = 0
      rw [cosineSimilarityStore, if_pos hne]
    · show 1 - cosineSimilarityStore sqrtF _ _ = 1
      rw [cosineSimilarityStore, if_pos hne, sub_zero]

/-- C10 witness: two stored chunks with mismatched embedding lengths (4 vs 5)
are recorded with Similarity 0 and Distance 1, and Distance = 1 - Similarity
throughout. -/
theorem storeSimilarities_distance_is_complement_witness :
    (∀ r ∈ calculateSimilaritiesStore (fun q => q)
        [(⟨1, "a", 0, [1, 1, 1, 1], ""⟩ : TextChunk),
          ⟨2, "b", 1, [1, 2, 3, 4, 5], ""⟩],
        r.distance = 1 - r.similarity)
    ∧ ∃ r ∈ calculateSimilaritiesStore (fun q => q)
        [(⟨1, "a", 0, [1, 1, 1, 1], ""⟩ : TextChunk),
          ⟨2, "b", 1, [1, 2, 3, 4, 5], ""⟩],
        r.chunkID1 = 1 ∧ r.chunkID2 = 2 ∧ r.similarity = 0 ∧ r.distance = 1 := by
  obtain ⟨_, hcomp, _, hmis⟩ := storeSimilarities_distance_is_complement
    (fun q => q) [(⟨1, "a", 0, [1, 1, 1, 1], ""⟩ : TextChunk),
      ⟨2, "b", 1, [1, 2, 3, 4, 5], ""⟩]
  obtain ⟨r, hr, h1, h2, h3, h4⟩ := hmis 0 1 (by decide) (by decide) (by decide)
  exact ⟨hcomp, r, hr, h1, h2, h3, h4⟩

/-! ## Claim C9: atomicity of the batch similarity insert -/

theorem batchInsertAux_ok (table : List ChunkSimilarity)
    (sims pending : List ChunkSimilarity)
    (h : (batchInsertAux table sims pending).1 = .ok ()) :
    (batchInsertAux table sims pending).2 = table ++ pending ++ sims := by
  induction sims generalizing pending with
  | nil => simp [batchInsertAux]
  | cons s rest ih =>
    rw [batchInsertAux] at h ⊢
    by_cases hc : simConflict (table ++ pending) s
    · rw [if_pos hc] at h
      exact absurd h (by simp)
    · rw [if_neg hc] at h ⊢
      rw [ih _ h]
      simp

theorem batchInsertAux_error (table : List ChunkSimilarity)
    (sims pending : List ChunkSimilarity) (e : String)
    (h : (batchInsertAux table sims pending).1 = .error e) :
    (batchInsertAux table sims pending).2 = table := by
  induction sims generalizing pending with
  | nil => simp [batchInsertAux] at h
  | cons s rest ih =>
    rw [batchInsertAux] at h ⊢
    by_cases hc : simConflict (table ++ pending) s
    · rw [if_pos hc]
    · rw [if_neg hc] at h ⊢
      exact ih _ h

theorem batchInsertAux_conflict (table : List ChunkSimilarity)
    (sims pending : List ChunkSimilarity)
    (h : ∃ s ∈ sims, simConflict table s = true) :
    ∃ e, (batchInsertAux table sims pending).1 = .error e := by
  induction sims generalizing pending with
  | nil => simp at h
  | cons s rest ih =>
    rw [batchInsertAux]
    by_cases hc : simConflict (table ++ pending) s
    · rw [if_pos hc]
      exact ⟨_, rfl⟩
    · rw [if_neg hc]
      obtain ⟨t, ht, htc⟩ := h
      rcases List.mem_cons.mp ht with rfl | hmem
      · exfalso
        apply hc
        unfold simConflict at htc ⊢
        rw [List.any_eq_true] at htc ⊢
        obtain ⟨r, hr, hrt⟩ := htc
        exact ⟨r, List.mem_append_left _ hr, hrt⟩
      · exact ih _ ⟨t, hmem, htc⟩

/-- C9: `BatchInsertSimilarities` is atomic: for every batch of similarity
records and every store state, if inserting any record fails (modelled
failure mode: the uniqueness-constraint violation declared by the schema)
the call returns an error and the `chunk_similarities` table is left
unchanged — no record of the batch is persisted; if the call succeeds,
every record of the batch is persisted.  In particular a batch containing a
record that collides with an already-committed row always fails. -/
theorem batchInsertSimilarities_atomic (table sims : List ChunkSimilarity) :
    ((BatchInsertSimilarities table sims).1 = .ok () →
      (BatchInsertSimilarities table sims).2 = table ++ sims)
    ∧ (∀ e, (BatchInsertSimilarities table sims).1 = .error e →
      (BatchInsertSimilarities table sims).2 = table)
    ∧ ((∃ s ∈ sims, simConflict table s = true) →
      ∃ e, (BatchInsertSimilarities table sims).1 = .error e) := by
  refine ⟨?_, ?_, ?_⟩
  · intro h
    have := batchInsertAux_ok table sims [] h
    simpa using this
  · intro e h
    exact batchInsertAux_error table sims [] e h
  · intro h
    exact batchInsertAux_conflict table sims [] h

/-- C9 witness: inserting a duplicate of a committed row (ids 1-2) fails and
leaves the table unchanged, while a fresh batch commits in full. -/
theorem batchInsertSimilarities_atomic_witness :
    (∃ e, (BatchInsertSimilarities [⟨7, 1, 2, 0, 1⟩] [⟨0, 1, 2, 0, 1⟩]).1
      = .error e)
    ∧ (BatchInsertSimilarities [⟨7, 1, 2, 0, 1⟩] [⟨0, 1, 2, 0, 1⟩]).2
      = [⟨7, 1, 2, 0, 1⟩]
    ∧ (BatchInsertSimilarities [] [⟨0, 1, 2, 0, 1⟩, ⟨0, 1, 3, 0, 1⟩]).2
      = [⟨0, 1, 2, 0, 1⟩, ⟨0, 1, 3, 0, 1⟩] := by
  obtain ⟨e, he⟩ := (batchInsertSimilarities_atomic
    [⟨7, 1, 2, 0, 1⟩] [⟨0, 1, 2, 0, 1⟩]).2.2
    ⟨⟨0, 1, 2, 0, 1⟩, by simp, by decide⟩
  refine ⟨⟨e, he⟩, (batchInsertSimilarities_atomic
    [⟨7, 1, 2, 0, 1⟩] [⟨0, 1, 2, 0, 1⟩]).2.1 e he, ?_⟩
  exact (batchInsertSimilarities_atomic []
    [⟨0, 1, 2, 0, 1⟩, ⟨0, 1, 3, 0, 1⟩]).1 rfl

/-! ## Claim C7: chunk indices equal sequence positions -/

theorem appendChunk_indices {acc : List TextChunk} {r : TextChunk}
    (hacc : ∀ k, k < acc.length → (acc.getD k default).chunkIndex = (k : Int))
    (hr : r.chunkIndex = (acc.length : Int)) :
    ∀ k, k < (acc ++ [r]).length →
      ((acc ++ [r]).getD k default).chunkIndex = (k : Int) := by
  intro k h
  rcases Nat.lt_or_ge k acc.length with hk | hk
  · have heq : (acc ++ [r]).getD k default = acc.getD k default := by
      rw [List.getD_eq_getElem _ _ h, List.getD_eq_getElem _ _ hk]
      exact List.getElem_append_left hk
    rw [heq]
    exact hacc k hk
  · have hk2 : k = acc.length := by
      simp only [List.length_append, List.length_singleton] at h
      omega
    subst hk2
    have heq : (acc ++ [r]).getD acc.length default = r := by
      rw [List.getD_eq_getElem _ _ h]
      exact List.getElem_concat_length acc r acc.length rfl _
    rw [heq, hr]

theorem chunkLinesAux_indices (lines : List String) :
    ∀ (cur : String) (acc : List TextChunk),
    (∀ k, k < acc.length → (acc.getD k default).chunkIndex = (k : Int)) →
    ∀ k, k < (chunkLinesAux lines cur (acc.length : Int) acc).length →
      ((chunkLinesAux lines cur (acc.length : Int) acc).getD k default).chunkIndex
        = (k : Int) := by
  induction lines with
  | nil =>
    intro cur acc hacc k h
    simp only [chunkLinesAux] at h ⊢
    by_cases hc : cur.length > 0
    · rw [if_pos hc] at h ⊢
      exact appendChunk_indices hacc rfl k h
    · rw [if_neg hc] at h ⊢
      exact hacc k h
  | cons lineRaw rest ih =>
    intro cur acc hacc k h
    simp only [chunkLinesAux] at h ⊢
    by_cases hline : goTrimSpace lineRaw = ""
    · rw [if_pos hline] at h ⊢
      by_cases hc : cur.length > 0
      · rw [if_pos hc] at h ⊢
        have hstep := ih "" (acc ++ [{ id := 0, text := goTrimSpace cur, chunkIndex := (acc.length : Int), embedding := [], summary := "" }]) (appendChunk_indices hacc rfl)
        simp only [List.length_append, List.length_singleton, Nat.cast_add,
          Nat.cast_one] at hstep
        exact hstep k h
      · rw [if_neg hc] at h ⊢
        exact ih cur acc hacc k h
    · rw [if_neg hline] at h ⊢
      exact ih _ acc hacc k h

/-- C7: for every input, the chunk sequence returned by
`ChunkTextByParagraphs` has `ChunkIndex` equal to sequence position: the
k-th returned chunk (zero-based) has `ChunkIndex` = k, so for N returned
chunks the indices are exactly 0..N-1 with no gaps.  This holds for both
implementations in the repository: unconditionally for the line-scanner
variant (src/unnamed/part_004), and for the splitter-based variant
(pkg/textproc/chunker.go) under the langchaingo splitter's interface
guarantee that every returned doc is non-empty after trimming (its
`joinDocs` trims each doc and drops empty ones before returning). -/
theorem chunkIndex_is_position (lines : List String)
    (splitText : String → Except String (List String)) (text : String)
    (hsplit : ∀ t docs, splitText t = .ok docs →
      ∀ d ∈ docs, (goTrimSpace d).length ≠ 0) :
    (∀ k, k < (ChunkTextByParagraphs lines).length →
      ((ChunkTextByParagraphs lines).getD k default).chunkIndex = (k : Int))
    ∧ (∀ l, chunkTextWithSplitter splitText text = .ok l →
        ∀ k, k < l.length → (l.getD k default).chunkIndex = (k : Int)) := by
  constructor
  · have base : ∀ k, k < ([] : List TextChunk).length →
        ((([] : List TextChunk)).getD k default).chunkIndex = (k : Int) := by
      intro k h
      simp at h
    exact chunkLinesAux_indices lines "" [] base
  · intro l hl k h
    rw [chunkTextWithSplitter] at hl
    by_cases ht : (goTrimSpace text).length = 0
    · rw [if_pos ht] at hl
      cases hl
      simp at h
    · rw [if_neg ht] at hl
      cases hdocs : splitText (goTrimSpace text) with
      | error e =>
        rw [hdocs] at hl
        cases hl
      | ok docs =>
        rw [hdocs] at hl
        cases hl
        have hall := hsplit _ _ hdocs
        have hmap : chunksFromDocs docs = docs.enum.map (fun p =>
            { id := 0, text := goTrimSpace p.2, chunkIndex := (p.1 : Int),
              embedding := [], summary := "" }) := by
          rw [chunksFromDocs]
          rw [List.filterMap_congr (g := fun p => some
            ({ id := 0, text := goTrimSpace p.2, chunkIndex := (p.1 : Int),
               embedding := [], summary := "" } : TextChunk)) ?hcong]
          · exact List.filterMap_eq_map_iff_forall_eq_some.mpr fun x _ => rfl
          case hcong =>
            intro p hp
            have hne : (goTrimSpace p.2).length ≠ 0 :=
              hall p.2 (List.snd_mem_of_mem_enum hp)
            simp only [if_pos (Nat.pos_of_ne_zero hne)]
        rw [hmap] at h ⊢
        have hb : k < docs.enum.length := by
          simpa using h
        rw [List.getD_eq_getElem _ _ h, List.getElem_map, List.getElem_enum]

/-- C7 witness: three paragraphs yield chunks indexed 0, 1, 2 in both
chunker variants (the splitter here returns two fixed non-blank docs). -/
theorem chunkIndex_is_position_witness :
    (ChunkTextByParagraphs ["One", "", "Two", "", "Three"]).length = 3
    ∧ ((ChunkTextByParagraphs ["One", "", "Two", "", "Three"]).getD 1
        default).chunkIndex = 1
    ∧ ∃ l, chunkTextWithSplitter (fun _ => .ok ["alpha", "beta"]) "input text"
        = .ok l ∧ (l.getD 1 default).chunkIndex = 1 := by
  have hlen : (ChunkTextByParagraphs ["One", "", "Two", "", "Three"]).length
      = 3 := by decide
  have h := chunkIndex_is_position ["One", "", "Two", "", "Three"]
    (fun _ => .ok ["alpha", "beta"]) "input text"
    (fun t docs hdocs => by
      cases hdocs
      decide)
  refine ⟨hlen, h.1 1 (by rw [hlen]; omega), ?_⟩
  have hok : chunkTextWithSplitter (fun _ => .ok ["alpha", "beta"])
      "input text" = .ok (chunksFromDocs ["alpha", "beta"]) := rfl
  refine ⟨chunksFromDocs ["alpha", "beta"], hok, ?_⟩
  have hlen2 : (chunksFromDocs ["alpha", "beta"]).length = 2 := by decide
  exact h.2 (chunksFromDocs ["alpha", "beta"]) hok 1 (by rw [hlen2]; omega)

/-! ## Claims C1 and C2: the concurrent batch operations -/

theorem collectFold_snd (results : List (Nat × Except String TextChunk))
    (acc : List TextChunk × List String) :
    (results.foldl collectStep acc).2
      = acc.2 ++ results.filterMap failMsg := by
  induction results generalizing acc with
  | nil => simp
  | cons r rest ih =>
    cases hr : r.2 with
    | error e =>
      rw [List.foldl_cons]
      simp only [collectStep, hr]
      rw [ih]
      simp [List.filterMap_cons, failMsg, hr]
    | ok c =>
      rw [List.foldl_cons]
      simp only [collectStep, hr]
      rw [ih]
      simp [List.filterMap_cons, failMsg, hr]

theorem collectResults_spec (n : Nat)
    (results : List (Nat × Except String TextChunk)) :
    (collectResults n results).2 = results.filterMap failMsg
    ∧ ((collectResults n results).1 = none ↔ results.filterMap failMsg ≠ []) := by
  have h := collectFold_snd results (List.replicate n default, [])
  rw [List.nil_append] at h
  simp only [collectResults]
  rw [h]
  by_cases hemp : (results.filterMap failMsg).isEmpty
  · rw [if_pos hemp]
    have : results.filterMap failMsg = [] := by
      simpa [List.isEmpty_iff] using hemp
    simp [this]
  · rw [if_neg hemp]
    have : results.filterMap failMsg ≠ [] := by
      simpa [List.isEmpty_iff] using hemp
    simp [this]

theorem collectResults_contract (n : Nat)
    (outcome : Nat → Except String TextChunk)
    (order : List Nat) (hperm : order.Perm (List.range n)) :
    aggregationContract n outcome
      (collectResults n (order.map (fun i => (i, outcome i)))) := by
  have hsnd := (collectResults_spec n (order.map (fun i => (i, outcome i)))).1
  have hiff := (collectResults_spec n (order.map (fun i => (i, outcome i)))).2
  have hfm : (order.map (fun i => (i, outcome i))).filterMap failMsg
      = order.filterMap (fun i => failMsg (i, outcome i)) := by
    rw [List.filterMap_map]
    rfl
  have hpermMsgs : (order.filterMap (fun i => failMsg (i, outcome i))).Perm
      ((List.range n).filterMap (fun i => failMsg (i, outcome i))) :=
    hperm.filterMap _
  have hmem0 : ∀ i, i < n → ∀ e, outcome i = .error e →
      ("chunk " ++ toString i ++ ": " ++ e)
        ∈ (collectResults n (order.map (fun i => (i, outcome i)))).2 := by
    intro i hi e he
    rw [hsnd, hfm]
    apply hpermMsgs.mem_iff.mpr
    exact List.mem_filterMap.mpr
      ⟨i, List.mem_range.mpr hi, by simp [failMsg, he]⟩
  refine ⟨?_, hmem0, ?_, ?_⟩
  · rw [hsnd, hfm]
    exact hpermMsgs
  · rintro ⟨i, hi, e, he⟩
    have hmem := hmem0 i hi e he
    have hne : (collectResults n (order.map (fun i => (i, outcome i)))).2 ≠ [] :=
      List.ne_nil_of_mem hmem
    exact ⟨hiff.mpr (by rw [hsnd] at hne; exact hne), hne⟩
  · rw [← hsnd] at hiff
    exact hiff

theorem foldSet_fst_length (results : List (Nat × Except String TextChunk))
    (acc : List TextChunk × List String) :
    (results.foldl collectStep acc).1.length = acc.1.length := by
  induction results generalizing acc with
  | nil => rfl
  | cons r rest ih =>
    rw [List.foldl_cons]
    cases hr : r.2 with
    | error e =>
      simp only [collectStep, hr]
      rw [ih]
    | ok c =>
      simp only [collectStep, hr]
      rw [ih]
      exact List.length_set acc.1 r.1 c

theorem foldSet_fst_untouched (results : List (Nat × Except String TextChunk))
    (acc : List TextChunk × List String) (i : Nat)
    (h : ∀ p ∈ results, p.1 ≠ i) :
    (results.foldl collectStep acc).1.getD i default
      = acc.1.getD i default := by
  induction results generalizing acc with
  | nil => rfl
  | cons r rest ih =>
    rw [List.foldl_cons]
    cases hr : r.2 with
    | error e =>
      simp only [collectStep, hr]
      exact ih _ (fun p hp => h p (List.mem_cons_of_mem _ hp))
    | ok c =>
      simp only [collectStep, hr]
      rw [ih _ (fun p hp => h p (List.mem_cons_of_mem _ hp))]
      unfold List.getD
      dsimp only
      rw [List.get?_set_ne c acc.1 (h r (by simp))]

theorem foldSet_fst_get (results : List (Nat × Except String TextChunk))
    (acc : List TextChunk × List String) (i : Nat) (c : TextChunk)
    (hmem : (i, Except.ok c) ∈ results)
    (huniq : (results.map Prod.fst).Nodup)
    (hi : i < acc.1.length) :
    (results.foldl collectStep acc).1.getD i default = c := by
  induction results generalizing acc with
  | nil => simp at hmem
  | cons r rest ih =>
    rw [List.map_cons, List.nodup_cons] at huniq
    rcases List.mem_cons.mp hmem with rfl | hmem2
    · rw [List.foldl_cons]
      have hnot : ∀ p ∈ rest, p.1 ≠ i := by
        intro p hp hpe
        have hm : p.1 ∈ rest.map Prod.fst := List.mem_map_of_mem Prod.fst hp
        rw [hpe] at hm
        exact huniq.1 hm
      rw [foldSet_fst_untouched rest _ i hnot]
      show ((collectStep acc (i, Except.ok c)).1).getD i default = c
      simp only [collectStep]
      rw [List.getD_eq_getElem _ _ (by simpa using hi)]
      exact List.getElem_set_self _
    · rw [List.foldl_cons]
      cases hr : r.2 with
      | error e =>
        simp only [collectStep, hr]
        exact ih _ hmem2 huniq.2 hi
      | ok c2 =>
        simp only [collectStep, hr]
        exact ih _ hmem2 huniq.2 (by simpa using hi)

/-- Order preservation of the result-collection loop: with per-iteration job
variables (the Go 1.22 `range` semantics; the repository builds with Go
1.21, see the code_bug evidence below) and every job succeeding, result
slot i holds the chunk originally at input position i with its `Embedding`
computed from that same chunk's own `Text`, for every arrival order of the
results — the behaviour the specification describes. -/
theorem getEmbeddingsConcurrentModel_ordering
    (getEmbedding : String → Except String (List ℚ))
    (chunks : List TextChunk) (order : List Nat)
    (hperm : order.Perm (List.range chunks.length))
    (hallok : ∀ j, j < chunks.length →
      ∃ v, getEmbedding (chunks.getD j default).text = .ok v) :
    ∃ l, (getEmbeddingsConcurrentModel getEmbedding chunks order).1 = some l
      ∧ l.length = chunks.length
      ∧ ∀ i, i < chunks.length → ∀ v,
          getEmbedding (chunks.getD i default).text = .ok v →
          l.getD i default = { chunks.getD i default with embedding := v } := by
  have hresnil : (order.map (fun j =>
      embeddingWorkerStep getEmbedding (j, chunks.getD j default))).filterMap
        failMsg = [] := by
    rw [List.filterMap_eq_nil]
    intro a ha
    rcases List.mem_map.mp ha with ⟨j, hj, rfl⟩
    have hjn : j < chunks.length :=
      List.mem_range.mp (hperm.subset hj)
    obtain ⟨v, hv⟩ := hallok j hjn
    show failMsg (embeddingWorkerStep getEmbedding (j, chunks.getD j default))
      = none
    unfold embeddingWorkerStep failMsg
    rw [hv]
  have hfold := collectFold_snd (order.map (fun j =>
      embeddingWorkerStep getEmbedding (j, chunks.getD j default)))
    (List.replicate chunks.length default, [])
  rw [List.nil_append, hresnil] at hfold
  refine ⟨((order.map (fun j => embeddingWorkerStep getEmbedding
      (j, chunks.getD j default))).foldl collectStep
      (List.replicate chunks.length default, [])).1, ?_, ?_, ?_⟩
  · show (collectResults chunks.length _).1 = _
    simp only [collectResults]
    rw [hfold]
    rfl
  · rw [foldSet_fst_length]
    exact List.length_replicate chunks.length default
  · intro i hi v hv
    have hmem : (i, Except.ok ({ chunks.getD i default with embedding := v }
        : TextChunk)) ∈ order.map (fun j =>
          embeddingWorkerStep getEmbedding (j, chunks.getD j default)) := by
      apply List.mem_map.mpr
      refine ⟨i, hperm.mem_iff.mpr (List.mem_range.mpr hi), ?_⟩
      unfold embeddingWorkerStep
      rw [hv]
    have huniq : ((order.map (fun j =>
        embeddingWorkerStep getEmbedding (j, chunks.getD j default))).map
          Prod.fst).Nodup := by
      rw [List.map_map]
      have : (Prod.fst ∘ fun j =>
          embeddingWorkerStep getEmbedding (j, chunks.getD j default))
          = fun j => j := rfl
      rw [this]
      simpa using hperm.nodup_iff.mpr (List.nodup_range chunks.length)
    exact foldSet_fst_get _ _ i _ hmem huniq
      (by rw [List.length_replicate]; exact hi)

/-- C2: if one or more jobs in a `GetEmbeddingsConcurrent` (or
`GetSummariesConcurrent`) batch fail, the call returns a non-nil aggregate
error that names every failing chunk index together with its underlying
cause, every remaining job is still processed — the error slice holds the
failure messages of all jobs, independent of arrival order — and no partial
chunk sequence is returned as a successful result: the returned sequence is
nil exactly when the error is non-nil.  `order` ranges over every arrival
order of the per-job results, covering every schedule of every worker
count. -/
theorem concurrentBatch_aggregate_failure
    (getEmbedding : String → Except String (List ℚ))
    (getSummary : String → Except String String)
    (chunks : List TextChunk) (order : List Nat)
    (hperm : order.Perm (List.range chunks.length)) :
    aggregationContract chunks.length
      (fun i => (embeddingWorkerStep getEmbedding (i, chunks.getD i default)).2)
      (getEmbeddingsConcurrentModel getEmbedding chunks order)
    ∧ aggregationContract chunks.length
      (fun i => (summaryWorkerStep getSummary (i, chunks.getD i default)).2)
      (getSummariesConcurrentModel getSummary chunks order) :=
  ⟨collectResults_contract chunks.length
      (fun i => (embeddingWorkerStep getEmbedding (i, chunks.getD i default)).2)
      order hperm,
    collectResults_contract chunks.length
      (fun i => (summaryWorkerStep getSummary (i, chunks.getD i default)).2)
      order hperm⟩

/-- C2 witness: a two-chunk batch in which the job for index 0 fails with
cause "boom" while results arrive out of order; the call fails, the error
names chunk 0 with its cause, and no chunk sequence is returned. -/
theorem concurrentBatch_aggregate_failure_witness :
    ("chunk 0: boom" ∈ (getEmbeddingsConcurrentModel
        (fun s => if s = "a" then .error "boom" else .ok [2])
        [⟨0, "a", 0, [], ""⟩, ⟨0, "b", 1, [], ""⟩] [1, 0]).2)
    ∧ (getEmbeddingsConcurrentModel
        (fun s => if s = "a" then .error "boom" else .ok [2])
        [⟨0, "a", 0, [], ""⟩, ⟨0, "b", 1, [], ""⟩] [1, 0]).1 = none
    ∧ (getEmbeddingsConcurrentModel
        (fun s => if s = "a" then .error "boom" else .ok [2])
        [⟨0, "a", 0, [], ""⟩, ⟨0, "b", 1, [], ""⟩] [1, 0]).2 ≠ [] := by
  have h := concurrentBatch_aggregate_failure
    (fun s => if s = "a" then .error "boom" else .ok [2])
    (fun _ => .ok "s")
    [⟨0, "a", 0, [], ""⟩, ⟨0, "b", 1, [], ""⟩] [1, 0] (by decide)
  obtain ⟨⟨_, hmem, hfail, _⟩, _⟩ := h
  have hm := hmem 0 (by decide) "boom" rfl
  have hf := hfail ⟨0, by decide, "boom", rfl⟩
  exact ⟨hm, hf.1, hf.2⟩

/-- C1 (code_bug evidence): under the Go 1.21 toolchain the repository pins
(release workflow `go-version: '1.21'`; README and demo.sh require Go 1.21),
the send loop of `GetEmbeddingsConcurrent` gives every job a pointer to the
single shared `range` variable.  Evaluating the resulting semantics at the
two-chunk input `[{Text: "a", ChunkIndex: 0}, {Text: "b", ChunkIndex: 1}]`
with an embedding oracle mapping "a" to [1] and "b" to [2]: the call
succeeds and BOTH result slots hold the last input chunk ("b", with
ChunkIndex 1 and embedding [2]) — slot 0 does not hold the chunk originally
at input position 0, whose text is "a" and whose own embedding would be
[1].  The ordering guarantee claimed by the specification is violated. -/
theorem go121Capture_breaks_ordering :
    (getEmbeddingsConcurrentGo121
        (fun s => if s = "a" then .ok [1] else .ok [2])
        [⟨0, "a", 0, [], ""⟩, ⟨0, "b", 1, [], ""⟩]).1
      = some [⟨0, "b", 1, [2], ""⟩, ⟨0, "b", 1, [2], ""⟩]
    ∧ (([⟨0, "a", 0, [], ""⟩, ⟨0, "b", 1, [], ""⟩]
        : List TextChunk).getD 0 default).text = "a"
    ∧ ((fun s => if s = "a" then (.ok [1] : Except String (List ℚ))
        else .ok [2]) "a" = .ok [1]) :=
  ⟨by decide, by decide, rfl⟩

/-! ## Claim C6: the summary-cleaning transform is not idempotent -/

/-- C6 counterexample: the summary-cleaning transform is not idempotent.
The prefix-stripping pass removes only the first matching boilerplate
phrase, so "Summary: Topic: cats" cleans to "Topic: cats", and cleaning
again strips the second phrase, giving "cats"; applying the transform twice
therefore differs from applying it once, refuting the claimed idempotence
for every input string. -/
theorem summaryTransform_not_idempotent :
    summaryTransform "Summary: Topic: cats" = "Topic: cats"
    ∧ summaryTransform (summaryTransform "Summary: Topic: cats") = "cats"
    ∧ summaryTransform (summaryTransform "Summary: Topic: cats")
      ≠ summaryTransform "Summary: Topic: cats" := by
  refine ⟨by decide, by decide, by decide⟩

/-- C6 (amended): the summary-cleaning transform is deterministic but not
idempotent on every input (re-cleaning can strip a further boilerplate
prefix, and the fixed-order single `TrimSuffix` pass can likewise leave
punctuation that a second pass removes, e.g. "x.," cleans to "x." and
re-cleans to "x"); the specific input
`<think>...</think>Summary: the old man and the sea.` cleans to
`the old man and the sea`, and the transform is idempotent at that input:
re-cleaning its output is a no-op. -/
theorem summaryTransform_example_fixed_point :
    summaryTransform "<think>...</think>Summary: the old man and the sea."
      = "the old man and the sea"
    ∧ summaryTransform (summaryTransform
        "<think>...</think>Summary: the old man and the sea.")
      = summaryTransform "<think>...</think>Summary: the old man and the sea."
    ∧ summaryTransform "x.," = "x."
    ∧ summaryTransform (summaryTransform "x.,") = "x" := by
  refine ⟨by decide, by decide, by decide, by decide⟩

end Bluffy
